import Mathlib

/-!
Verification development for the concurrent task orchestration engine in
src/account-generator-frontend/src/App.js: the captcha turn arbiter, the
browser context pool, the captcha solving loop, the adaptive batch scheduler,
the email prefetch queue, the captcha resolver registry and the frontend
captcha queue, each shallowly embedded as pure Lean functions over explicit
state, with the system's invariants proved over arbitrary operation sequences.
-/

set_option maxHeartbeats 1000000

namespace Autofirm

/-! ## Turn arbiter

Embeds the captcha queue system (App.js lines 585-590 and 750-773):
a FIFO list of waiting thread ids (`captchaQueue`, pushed at the end and
shifted from the front) and a single active holder (`activeCaptchaThreadId`).
The callback stored with each queue entry is abstracted away; a grant
(`next.resolve()`) is recorded in a `grants` log so that the grant order can
be compared with the arrival order.  `skipFlags` embeds `skipCaptchaFlags`,
which `releaseCaptchaLock` clears for the releasing thread. -/

structure ArbState where
  queue : List Nat
  active : Option Nat
  skipFlags : List Nat
  grants : List Nat
  deriving DecidableEq, Repr

def ArbState.init : ArbState := ⟨[], none, [], []⟩

/-- Source `processCaptchaQueue` (lines 757-764): when no thread is active and the
queue is non-empty, shift the front entry, make it the active holder and
resolve (grant) it. -/
def processCaptchaQueue (s : ArbState) : ArbState :=
  match s.active, s.queue with
  | none, t :: rest =>
    { s with queue := rest, active := some t, grants := s.grants ++ [t] }
  | _, _ => s

/-- Source `waitForCaptchaTurn` (lines 750-755): push the ticket at the back of the
queue, then run `processCaptchaQueue`. -/
def waitForCaptchaTurn (tid : Nat) (s : ArbState) : ArbState :=
  processCaptchaQueue { s with queue := s.queue ++ [tid] }

/-- Source `releaseCaptchaLock` (lines 766-773): only the current holder releases;
the holder is cleared, its skip flag deleted, and the next waiter granted. -/
def releaseCaptchaLock (tid : Nat) (s : ArbState) : ArbState :=
  if s.active = some tid then
    processCaptchaQueue
      { s with active := none, skipFlags := s.skipFlags.erase tid }
  else s

inductive ArbEvent where
  | enq (tid : Nat)
  | rel (tid : Nat)
  deriving DecidableEq, Repr

def arbStep (s : ArbState) : ArbEvent → ArbState
  | .enq tid => waitForCaptchaTurn tid s
  | .rel tid => releaseCaptchaLock tid s

def arbRun (evts : List ArbEvent) : ArbState :=
  evts.foldl arbStep ArbState.init

/-- The arrival order of tickets: the sequence of enqueued thread ids. -/
def arrivals (evts : List ArbEvent) : List Nat :=
  evts.filterMap fun e =>
    match e with
    | .enq t => some t
    | .rel _ => none

theorem processCaptchaQueue_grants_queue (s : ArbState) :
    (processCaptchaQueue s).grants ++ (processCaptchaQueue s).queue =
      s.grants ++ s.queue := by
  unfold processCaptchaQueue
  match h1 : s.active, h2 : s.queue with
  | none, t :: rest => simp
  | none, [] => simp [h2]
  | some a, q => simp [h1, h2]

theorem arbStep_grants_queue (s : ArbState) (e : ArbEvent) :
    (arbStep s e).grants ++ (arbStep s e).queue =
      s.grants ++ s.queue ++ (arrivals [e]) := by
  cases e with
  | enq tid =>
    simp [arbStep, waitForCaptchaTurn, arrivals,
      processCaptchaQueue_grants_queue
        { s with queue := s.queue ++ [tid] }]
  | rel tid =>
    simp only [arbStep, releaseCaptchaLock, arrivals, List.filterMap]
    split
    · rw [processCaptchaQueue_grants_queue]
      simp
    · simp

theorem foldl_arbStep_grants_queue (evts : List ArbEvent) (s : ArbState) :
    (evts.foldl arbStep s).grants ++ (evts.foldl arbStep s).queue =
      s.grants ++ s.queue ++ arrivals evts := by
  induction evts generalizing s with
  | nil => simp [arrivals]
  | cons e rest ih =>
    have h1 : arrivals (e :: rest) = arrivals [e] ++ arrivals rest := by
      cases e <;> simp [arrivals]
    rw [List.foldl_cons, ih (arbStep s e), h1, arbStep_grants_queue,
      List.append_assoc]

/-! ## Task outcomes and the adaptive batch scheduler

Embeds `calculateOptimalBatchSize` (lines 2135-2145) and the batch dispatch
loop of the `/api/generate` handler (lines 2151-2281).  A task settles with
one of three outcomes, mirroring `processAccount`'s result object:
`{success: true}`, `{success: false, skipped: true}` or plain failure.
The outcome of each dispatched attempt is supplied by an `oracle` indexed by
the attempt ordinal (`threadId = totalAttempts` at dispatch time).  `batchLog`
records `(currentThreads, successfulCount, batchSize)` at each dispatch so
that the batch sizing policy can be stated over whole runs. -/

inductive TaskOutcome where
  | success | skipped | failed
  deriving DecidableEq, Repr

structure SchedState where
  succ : Int
  att : Int
  threads : Int
  results : List TaskOutcome
  batchLog : List (Int × Int × Int)
  deriving DecidableEq, Repr

/-- Source `calculateOptimalBatchSize(successRate, currentThreads, maxThreads)`
(lines 2135-2145), with the success rate as an exact rational. -/
def calculateOptimalBatchSize (successRate : ℚ) (currentThreads maxThreads : Int) : Int :=
  if successRate > 0.75 then min (currentThreads + 1) maxThreads
  else if successRate < 0.35 then max (currentThreads - 1) 2
  else currentThreads

/-- Integer cross-multiplied form of the concurrency update, used to make
concrete runs kernel-computable; proved equal to the rational version in
`calculateOptimalBatchSize_eq_int`. -/
def calcThreadsInt (sCnt len : Nat) (currentThreads maxThreads : Int) : Int :=
  if 3 * len < 4 * sCnt then min (currentThreads + 1) maxThreads
  else if 20 * sCnt < 7 * len then max (currentThreads - 1) 2
  else currentThreads

theorem calculateOptimalBatchSize_eq_int (sCnt len : Nat) (cur maxT : Int)
    (hlen : 0 < len) :
    calculateOptimalBatchSize ((sCnt : ℚ) / (len : ℚ)) cur maxT =
      calcThreadsInt sCnt len cur maxT := by
  have hq : (0 : ℚ) < (len : ℚ) := by exact_mod_cast hlen
  have h1 : ((sCnt : ℚ) / (len : ℚ) > 0.75) ↔ 3 * len < 4 * sCnt := by
    rw [gt_iff_lt, show (0.75 : ℚ) = 3 / 4 by norm_num,
      div_lt_div_iff₀ (by norm_num) hq,
      show ((3 : ℚ) * len) = ((3 * len : ℕ) : ℚ) by push_cast; ring,
      show ((sCnt : ℚ) * 4) = ((4 * sCnt : ℕ) : ℚ) by push_cast; ring,
      Nat.cast_lt]
  have h2 : ((sCnt : ℚ) / (len : ℚ) < 0.35) ↔ 20 * sCnt < 7 * len := by
    rw [show (0.35 : ℚ) = 7 / 20 by norm_num, div_lt_div_iff₀ hq (by norm_num),
      show ((sCnt : ℚ) * 20) = ((20 * sCnt : ℕ) : ℚ) by push_cast; ring,
      show ((7 : ℚ) * len) = ((7 * len : ℕ) : ℚ) by push_cast; ring,
      Nat.cast_lt]
  unfold calculateOptimalBatchSize calcThreadsInt
  rw [if_congr h1 rfl rfl, if_congr h2 rfl rfl]

/-- The outcomes of one batch: threadIds are the attempt ordinals
`att+1 .. att+size` (line 2198: `totalAttempts++; const threadId = totalAttempts`). -/
def batchOutcomes (oracle : Int → TaskOutcome) (att size : Int) : List TaskOutcome :=
  (List.range size.toNat).map fun (i : Nat) => oracle (att + 1 + (i : Int))

def countSuccess (l : List TaskOutcome) : Nat :=
  (l.filter (· = .success)).length

def countSkipped (l : List TaskOutcome) : Nat :=
  (l.filter (· = .skipped)).length

def countFailed (l : List TaskOutcome) : Nat :=
  (l.filter (· = .failed)).length

/-- One iteration of the while loop (lines 2188-2242): dispatch a batch of
`min(currentThreads, accountCount - successfulCount)` tasks, settle them,
then recompute the thread count from the batch success rate
(`batchResults.filter(r => r.success).length / batchResults.length`). -/
def schedStep (oracle : Int → TaskOutcome) (N maxA : Int) (s : SchedState) : SchedState :=
  let size := min s.threads (N - s.succ)
  let outs := batchOutcomes oracle s.att size
  let sCnt := countSuccess outs
  let rate : ℚ := (sCnt : ℚ) / (outs.length : ℚ)
  { succ := s.succ + sCnt
    att := s.att + size
    threads := calculateOptimalBatchSize rate s.threads maxA
    results := s.results ++ outs
    batchLog := s.batchLog ++ [(s.threads, s.succ, size)] }

/-- Integer twin of `schedStep` (same batch, `calcThreadsInt` update). -/
def schedStepInt (oracle : Int → TaskOutcome) (N maxA : Int) (s : SchedState) : SchedState :=
  let size := min s.threads (N - s.succ)
  let outs := batchOutcomes oracle s.att size
  let sCnt := countSuccess outs
  { succ := s.succ + sCnt
    att := s.att + size
    threads := calcThreadsInt sCnt outs.length s.threads maxA
    results := s.results ++ outs
    batchLog := s.batchLog ++ [(s.threads, s.succ, size)] }

theorem schedStep_eq_int (oracle : Int → TaskOutcome) (N maxA : Int) (s : SchedState)
    (h1 : 1 ≤ s.threads) (h2 : s.succ < N) :
    schedStep oracle N maxA s = schedStepInt oracle N maxA s := by
  have hsize : 1 ≤ min s.threads (N - s.succ) := le_min h1 (by omega)
  have hlen : 0 < (batchOutcomes oracle s.att (min s.threads (N - s.succ))).length := by
    unfold batchOutcomes
    rw [List.length_map, List.length_range]
    generalize hm : min s.threads (N - s.succ) = m at hsize ⊢
    omega
  unfold schedStep schedStepInt
  simp only [calculateOptimalBatchSize_eq_int _ _ _ _ hlen]

/-- The `while (successfulCount < accountCount && totalAttempts < maxTotalAttempts)`
loop (line 2188), fuelled; the fuel is chosen large enough that it never runs
out (`schedLoop_exits`). -/
def schedLoop (oracle : Int → TaskOutcome) (N M maxA : Int) : Nat → SchedState → SchedState
  | 0, s => s
  | fuel + 1, s =>
    if s.succ < N ∧ s.att < M then
      schedLoop oracle N M maxA fuel (schedStep oracle N maxA s)
    else s

def schedLoopInt (oracle : Int → TaskOutcome) (N M maxA : Int) : Nat → SchedState → SchedState
  | 0, s => s
  | fuel + 1, s =>
    if s.succ < N ∧ s.att < M then
      schedLoopInt oracle N M maxA fuel (schedStepInt oracle N maxA s)
    else s

theorem calcThreadsInt_ge_one (sCnt len : Nat) (cur maxT : Int)
    (h1 : 1 ≤ cur) (h2 : 1 ≤ maxT) : 1 ≤ calcThreadsInt sCnt len cur maxT := by
  unfold calcThreadsInt
  split
  · exact le_min (by omega) h2
  · split
    · exact le_trans (by norm_num) (le_max_right (cur - 1) 2)
    · exact h1

theorem calcThreadsInt_le_bound (sCnt len : Nat) (cur maxT : Int)
    (h1 : cur ≤ max maxT 3) : calcThreadsInt sCnt len cur maxT ≤ max maxT 3 := by
  unfold calcThreadsInt
  split
  · exact le_trans (min_le_right _ _) (le_max_left maxT 3)
  · split
    · exact max_le (by omega) (le_trans (by norm_num) (le_max_right maxT 3))
    · exact h1

theorem schedLoop_eq_int (oracle : Int → TaskOutcome) (N M maxA : Int) (hmax : 1 ≤ maxA) :
    ∀ (fuel : Nat) (s : SchedState), 1 ≤ s.threads →
      schedLoop oracle N M maxA fuel s = schedLoopInt oracle N M maxA fuel s := by
  intro fuel
  induction fuel with
  | zero => intro s _; rfl
  | succ n ih =>
    intro s hs
    unfold schedLoop schedLoopInt
    split
    · next hguard =>
      rw [schedStep_eq_int oracle N maxA s hs hguard.1]
      apply ih
      simp only [schedStepInt]
      exact calcThreadsInt_ge_one _ _ _ _ hs hmax
    · rfl

/-- The `/api/generate` run (lines 2151-2281): `maxTotalAttempts = accountCount * 8`
(line 2174), `maxAllowedThreads = Math.min(maxThreads, MAX_THREADS)` with
`MAX_THREADS = 6` (lines 598, 2161), starting thread count
`Math.min(3, maxAllowedThreads)` (line 2162). -/
def runGenerate (oracle : Int → TaskOutcome) (accountCount maxThreads : Int) : SchedState :=
  schedLoop oracle accountCount (accountCount * 8) (min maxThreads 6)
    ((accountCount * 8).toNat + 1)
    ⟨0, 0, min 3 (min maxThreads 6), [], []⟩

structure Summary where
  targetSuccessful : Int
  actualSuccessful : Int
  totalAttempts : Int
  skippedCount : Int
  failedCount : Int
  deriving DecidableEq, Repr

/-- The response summary (lines 2260-2280): `skipped = results.filter(r => r.skipped).length`,
`failed = results.filter(r => !r.success && !r.skipped).length`. -/
def summarize (accountCount : Int) (s : SchedState) : Summary :=
  ⟨accountCount, s.succ, s.att, (countSkipped s.results : Int), (countFailed s.results : Int)⟩

theorem countSuccess_append (l1 l2 : List TaskOutcome) :
    countSuccess (l1 ++ l2) = countSuccess l1 + countSuccess l2 := by
  simp [countSuccess, List.filter_append]

theorem batchOutcomes_length (oracle : Int → TaskOutcome) (att size : Int) :
    (batchOutcomes oracle att size).length = size.toNat := by
  unfold batchOutcomes
  rw [List.length_map, List.length_range]

theorem countSuccess_le_length (l : List TaskOutcome) : countSuccess l ≤ l.length :=
  List.length_filter_le _ _

/-- Loop invariant of the dispatch loop: the thread count stays in
`[1, max maxA 3]`, the success counter never exceeds the target and always
equals the number of success outcomes settled so far, and every dispatched
batch was sized `min(currentThreads, accountCount - successfulCount)`. -/
def SchedInv (N maxA : Int) (s : SchedState) : Prop :=
  1 ≤ s.threads ∧ s.threads ≤ max maxA 3 ∧ 0 ≤ s.succ ∧ s.succ ≤ N ∧
  s.succ = (countSuccess s.results : Int) ∧
  ∀ e ∈ s.batchLog, e.2.2 = min e.1 (N - e.2.1)

theorem schedStep_inv (oracle : Int → TaskOutcome) (N maxA : Int) (s : SchedState)
    (hmax : 1 ≤ maxA) (hInv : SchedInv N maxA s) (hg : s.succ < N) :
    SchedInv N maxA (schedStep oracle N maxA s) ∧
      s.att + 1 ≤ (schedStep oracle N maxA s).att ∧
      (schedStep oracle N maxA s).att ≤ s.att + max maxA 3 := by
  obtain ⟨ht1, ht2, hs0, hsN, hcnt, hlog⟩ := hInv
  rw [schedStep_eq_int oracle N maxA s ht1 hg]
  have hsize1 : 1 ≤ min s.threads (N - s.succ) := le_min ht1 (by omega)
  have hsize2 : min s.threads (N - s.succ) ≤ N - s.succ := min_le_right _ _
  have hsize3 : min s.threads (N - s.succ) ≤ s.threads := min_le_left _ _
  have hcntle : (countSuccess (batchOutcomes oracle s.att (min s.threads (N - s.succ))) : Int)
      ≤ min s.threads (N - s.succ) := by
    have h1 := countSuccess_le_length (batchOutcomes oracle s.att (min s.threads (N - s.succ)))
    rw [batchOutcomes_length] at h1
    generalize hm : min s.threads (N - s.succ) = m at h1 hsize1 ⊢
    omega
  unfold schedStepInt SchedInv
  dsimp only
  refine ⟨⟨?_, ?_, ?_, ?_, ?_, ?_⟩, ?_, ?_⟩
  · exact calcThreadsInt_ge_one _ _ _ _ ht1 hmax
  · exact calcThreadsInt_le_bound _ _ _ _ ht2
  · have := (countSuccess (batchOutcomes oracle s.att (min s.threads (N - s.succ)))).cast_nonneg
      (α := Int)
    omega
  · generalize hm : min s.threads (N - s.succ) = m at hcntle hsize2 ⊢
    omega
  · rw [countSuccess_append, hcnt]
    push_cast
    ring
  · intro e he
    rcases List.mem_append.mp he with h | h
    · exact hlog e h
    · rcases List.mem_singleton.mp h with rfl
      rfl
  · generalize hm : min s.threads (N - s.succ) = m at hsize1 ⊢
    omega
  · have h := le_trans hsize3 ht2
    generalize hm : min s.threads (N - s.succ) = m at h ⊢
    omega

theorem schedLoop_post (oracle : Int → TaskOutcome) (N M maxA : Int) (hmax : 1 ≤ maxA) :
    ∀ (fuel : Nat) (s : SchedState), SchedInv N maxA s → s.att < M + max maxA 3 →
      (M - s.att).toNat < fuel →
      (¬ ((schedLoop oracle N M maxA fuel s).succ < N ∧
            (schedLoop oracle N M maxA fuel s).att < M))
      ∧ SchedInv N maxA (schedLoop oracle N M maxA fuel s)
      ∧ (schedLoop oracle N M maxA fuel s).att < M + max maxA 3 := by
  intro fuel
  induction fuel with
  | zero =>
    intro s _ _ hFuel
    exact absurd hFuel (Nat.not_lt_zero _)
  | succ n ih =>
    intro s hInv hAtt hFuel
    unfold schedLoop
    split
    · next hguard =>
      obtain ⟨hInv', hstep1, hstep2⟩ := schedStep_inv oracle N maxA s hmax hInv hguard.1
      have hb : (schedStep oracle N maxA s).att < M + max maxA 3 := by
        have h3 : (3 : Int) ≤ max maxA 3 := le_max_right _ _
        have := hguard.2
        generalize hmx : max maxA 3 = c at h3 hstep2 ⊢
        omega
      apply ih (schedStep oracle N maxA s) hInv' hb
      have := hguard.2
      omega
    · next hguard =>
      exact ⟨hguard, hInv, hAtt⟩

/-- Oracle for the attempt-ceiling counterexample: only the very first
dispatched attempt succeeds, every later attempt fails. -/
def oneSuccessOracle : Int → TaskOutcome :=
  fun i => if i = 1 then .success else .failed

/-- C4: the adaptive concurrency update is exactly: rate > 0.75 gives
min(prev+1, max); rate < 0.35 gives max(prev-1, 2); otherwise unchanged;
and in particular prev=3, max=6 gives 4 at rate 0.8, 2 at rate 0.2 and
3 at rate 0.5. -/
theorem adaptive_concurrency_update :
    (∀ (rate : ℚ) (prev maxT : Int), rate > 0.75 →
        calculateOptimalBatchSize rate prev maxT = min (prev + 1) maxT)
    ∧ (∀ (rate : ℚ) (prev maxT : Int), rate < 0.35 →
        calculateOptimalBatchSize rate prev maxT = max (prev - 1) 2)
    ∧ (∀ (rate : ℚ) (prev maxT : Int), 0.35 ≤ rate → rate ≤ 0.75 →
        calculateOptimalBatchSize rate prev maxT = prev)
    ∧ calculateOptimalBatchSize (4 / 5) 3 6 = 4
    ∧ calculateOptimalBatchSize (1 / 5) 3 6 = 2
    ∧ calculateOptimalBatchSize (1 / 2) 3 6 = 3 := by
  refine ⟨?_, ?_, ?_, ?_, ?_, ?_⟩
  · intro rate prev maxT h
    unfold calculateOptimalBatchSize
    rw [if_pos h]
  · intro rate prev maxT h
    unfold calculateOptimalBatchSize
    rw [if_neg (by rw [gt_iff_lt, not_lt]; linarith [h]), if_pos h]
  · intro rate prev maxT h1 h2
    unfold calculateOptimalBatchSize
    rw [if_neg (by rw [gt_iff_lt, not_lt]; exact h2), if_neg (not_lt.mpr h1)]
  · unfold calculateOptimalBatchSize
    norm_num
  · unfold calculateOptimalBatchSize
    norm_num
  · unfold calculateOptimalBatchSize
    norm_num

/-- Witness for C4 at concrete rates 0.9, 0.3 and 0.5. -/
theorem adaptive_concurrency_update_witness :
    calculateOptimalBatchSize (9 / 10) 3 6 = min (3 + 1) 6 ∧
    calculateOptimalBatchSize (3 / 10) 3 6 = max (3 - 1) 2 ∧
    calculateOptimalBatchSize (1 / 2) 4 6 = 4 :=
  ⟨adaptive_concurrency_update.1 (9 / 10) 3 6 (by norm_num),
   adaptive_concurrency_update.2.1 (3 / 10) 3 6 (by norm_num),
   adaptive_concurrency_update.2.2.1 (1 / 2) 4 6 (by norm_num) (by norm_num)⟩

/-- C5 counterexample: with target 3 and maxThreads 6, the oracle that
succeeds only on attempt 1 drives the run to 25 total attempts, exceeding
the ceiling maxTotalAttempts = 3 * 8 = 24, because the ceiling is only
checked before a batch is dispatched (line 2188), not when attempts are
counted inside the batch (line 2197). -/
theorem scheduler_attempt_ceiling_counterexample :
    (runGenerate oneSuccessOracle 3 6).att = 25 ∧
    3 * 8 < (runGenerate oneSuccessOracle 3 6).att := by
  have h0 : runGenerate oneSuccessOracle 3 6 =
      schedLoopInt oneSuccessOracle 3 24 6 25 ⟨0, 0, 3, [], []⟩ := by
    rw [show runGenerate oneSuccessOracle 3 6 =
          schedLoop oneSuccessOracle 3 24 6 25 ⟨0, 0, 3, [], []⟩ from rfl,
      schedLoop_eq_int oneSuccessOracle 3 24 6 (by norm_num) 25 ⟨0, 0, 3, [], []⟩
        (by norm_num)]
  rw [h0]
  exact ⟨by decide, by decide⟩

/-- Shared postcondition of a whole run: the loop guard is false at the end,
the loop invariant holds, and the attempt count is bounded. -/
theorem runGenerate_post (oracle : Int → TaskOutcome) (N maxT : Int)
    (hN : 1 ≤ N) (hT : 1 ≤ maxT) :
    (N ≤ (runGenerate oracle N maxT).succ ∨ N * 8 ≤ (runGenerate oracle N maxT).att)
    ∧ SchedInv N (min maxT 6) (runGenerate oracle N maxT)
    ∧ (runGenerate oracle N maxT).att < N * 8 + max (min maxT 6) 3 := by
  have hmax : (1 : Int) ≤ min maxT 6 := le_min hT (by norm_num)
  have hInv0 : SchedInv N (min maxT 6) ⟨0, 0, min 3 (min maxT 6), [], []⟩ := by
    unfold SchedInv
    dsimp only
    refine ⟨le_min (by norm_num) hmax,
      le_trans (min_le_left _ _) (le_max_right _ _), le_refl 0, by omega, ?_, ?_⟩
    · simp [countSuccess]
    · intro e he
      simp at he
  have h3max : (3 : Int) ≤ max (min maxT 6) 3 := le_max_right _ _
  have hAtt0 : (0 : Int) < N * 8 + max (min maxT 6) 3 := by
    generalize hmx : max (min maxT 6) 3 = c at h3max ⊢
    omega
  have hFuel : ((N * 8 : Int) - 0).toNat < (N * 8).toNat + 1 := by omega
  obtain ⟨hg, hInvF, hAttF⟩ := schedLoop_post oracle N (N * 8) (min maxT 6) hmax
    ((N * 8).toNat + 1) ⟨0, 0, min 3 (min maxT 6), [], []⟩ hInv0 hAtt0 hFuel
  rw [not_and_or, not_lt, not_lt] at hg
  exact ⟨hg, hInvF, hAttF⟩

/-- C5 (amended): for targetSuccesses N ≥ 1 and maxThreads ≥ 1, the run
always terminates with the loop guard false — it ends exactly when
successesSoFar ≥ N or totalAttempts ≥ M = 8N — with actualSuccessful ≤ N
(and = N whenever the run reaches N successes), every batch sized
min(currentConcurrency, N - successesSoFar); but totalAttempts may exceed M:
it is only bounded by M + max(maxAllowedThreads, 3) - 1, because the ceiling
is checked before each batch, not inside it. -/
theorem scheduler_run_bounds (oracle : Int → TaskOutcome) (N maxT : Int)
    (hN : 1 ≤ N) (hT : 1 ≤ maxT) :
    (N ≤ (runGenerate oracle N maxT).succ ∨ N * 8 ≤ (runGenerate oracle N maxT).att)
    ∧ (runGenerate oracle N maxT).succ ≤ N
    ∧ (N ≤ (runGenerate oracle N maxT).succ → (runGenerate oracle N maxT).succ = N)
    ∧ (runGenerate oracle N maxT).att < N * 8 + max (min maxT 6) 3
    ∧ (∀ e ∈ (runGenerate oracle N maxT).batchLog, e.2.2 = min e.1 (N - e.2.1)) := by
  obtain ⟨hg, hInvF, hAttF⟩ := runGenerate_post oracle N maxT hN hT
  refine ⟨hg, hInvF.2.2.2.1, ?_, hAttF, hInvF.2.2.2.2.2⟩
  intro h
  exact le_antisymm hInvF.2.2.2.1 h

/-- Witness for C5 at target 1, maxThreads 6, all attempts failing. -/
theorem scheduler_run_bounds_witness :
    (runGenerate (fun _ => TaskOutcome.failed) 1 6).succ ≤ 1 ∧
    ((1 : Int) ≤ (runGenerate (fun _ => TaskOutcome.failed) 1 6).succ ∨
      1 * 8 ≤ (runGenerate (fun _ => TaskOutcome.failed) 1 6).att) :=
  ⟨(scheduler_run_bounds (fun _ => TaskOutcome.failed) 1 6 (by norm_num) (by norm_num)).2.1,
   (scheduler_run_bounds (fun _ => TaskOutcome.failed) 1 6 (by norm_num) (by norm_num)).1⟩

/-! ## Browser context pool

Embeds `BrowserContextPool` (lines 697-743), instantiated with
`maxSize = 6` (line 745).  Contexts are identified by numbers; `nextId`
supplies the identity of a freshly created context.  The free list `pool`
is a stack in the source (push/pop at the array end); here the list head is
the top of that stack, an orientation choice none of the proved properties
depend on.  `getContext` takes `createOk` (whether
`browser.createBrowserContext()` succeeds; on failure it returns null and
leaves the pool untouched) and `releaseContext` takes `sanitizeOk` (whether
clearing the pages' session state succeeds; on failure the context is closed
instead of pooled). -/

structure PoolState where
  pool : List Nat
  inUse : Finset Nat
  maxSize : Nat
  nextId : Nat
  deriving DecidableEq

def PoolState.init : PoolState := ⟨[], ∅, 6, 0⟩

/-- Source `getContext` (lines 704-719): reuse a free context if the free list is
non-empty; otherwise create a new one — with no check against `maxSize`. -/
def getContext (createOk : Bool) (s : PoolState) : Option Nat × PoolState :=
  match s.pool with
  | c :: rest => (some c, { s with pool := rest, inUse := insert c s.inUse })
  | [] =>
    if createOk then
      (some s.nextId,
        { s with inUse := insert s.nextId s.inUse, nextId := s.nextId + 1 })
    else (none, s)

/-- Source `releaseContext` (lines 721-735): remove from the in-use set; if the free
list is below capacity and sanitizing succeeds, retain the context, otherwise
close (discard) it. -/
def releaseContext (c : Nat) (sanitizeOk : Bool) (s : PoolState) : PoolState :=
  let s1 := { s with inUse := s.inUse.erase c }
  if s1.pool.length < s1.maxSize then
    if sanitizeOk then { s1 with pool := c :: s1.pool } else s1
  else s1

inductive PoolOp where
  | acquire (createOk : Bool)
  | release (c : Nat) (sanitizeOk : Bool)
  deriving DecidableEq, Repr

def poolStep (s : PoolState) : PoolOp → PoolState
  | .acquire ok => (getContext ok s).2
  | .release c ok => releaseContext c ok s

def poolRun (ops : List PoolOp) : PoolState :=
  ops.foldl poolStep PoolState.init

/-- A sequence of pool operations is valid when every release names a
context currently checked out — how `processAccount` uses the pool: each
task releases exactly the context it acquired, once, in its finally block
(line 2127). -/
def poolOpsValid : List PoolOp → PoolState → Bool
  | [], _ => true
  | op :: rest, s =>
    match op with
    | .acquire _ => poolOpsValid rest (poolStep s op)
    | .release c _ => decide (c ∈ s.inUse) && poolOpsValid rest (poolStep s op)

/-- Structural well-formedness of a pool state: free list duplicate-free and
disjoint from the in-use set, all identities below the freshness counter,
free list within capacity. -/
def PoolWF (s : PoolState) : Prop :=
  s.pool.Nodup ∧ (∀ c ∈ s.pool, c ∉ s.inUse) ∧ (∀ c ∈ s.pool, c < s.nextId) ∧
  (∀ c ∈ s.inUse, c < s.nextId) ∧ s.pool.length ≤ s.maxSize

theorem getContext_wf (ok : Bool) (s : PoolState) (h : PoolWF s) :
    PoolWF (getContext ok s).2 := by
  obtain ⟨pl, iu, ms, nid⟩ := s
  obtain ⟨hnd, hdisj, hbp, hbu, hlen⟩ := h
  simp only [PoolWF] at hnd hdisj hbp hbu hlen ⊢
  cases pl with
  | cons c rest =>
    simp only [getContext]
    refine ⟨(List.nodup_cons.mp hnd).2, ?_, ?_, ?_, ?_⟩
    · intro x hx
      rw [Finset.mem_insert]
      push_neg
      exact ⟨fun hxc => (List.nodup_cons.mp hnd).1 (hxc ▸ hx),
        hdisj x (List.mem_cons_of_mem c hx)⟩
    · intro x hx
      exact hbp x (List.mem_cons_of_mem c hx)
    · intro x hx
      rcases Finset.mem_insert.mp hx with rfl | hx'
      · exact hbp _ (List.mem_cons_self _ _)
      · exact hbu x hx'
    · simp only [List.length_cons] at hlen
      omega
  | nil =>
    simp only [getContext]
    split
    · dsimp only
      refine ⟨List.nodup_nil, by simp, by simp, ?_, by simp⟩
      intro x hx
      rcases Finset.mem_insert.mp hx with rfl | hx'
      · omega
      · exact Nat.lt_succ_of_lt (hbu x hx')
    · exact ⟨hnd, hdisj, hbp, hbu, hlen⟩

theorem releaseContext_wf (c : Nat) (ok : Bool) (s : PoolState)
    (hc : c ∈ s.inUse) (h : PoolWF s) : PoolWF (releaseContext c ok s) := by
  obtain ⟨pl, iu, ms, nid⟩ := s
  obtain ⟨hnd, hdisj, hbp, hbu, hlen⟩ := h
  simp only at hc
  simp only [PoolWF] at hnd hdisj hbp hbu hlen ⊢
  simp only [releaseContext]
  split
  · next hfull =>
    split
    · refine ⟨?_, ?_, ?_, ?_, ?_⟩
      · rw [List.nodup_cons]
        exact ⟨fun hcp => hdisj c hcp hc, hnd⟩
      · intro x hx
        rcases List.mem_cons.mp hx with rfl | hx'
        · exact Finset.not_mem_erase x iu
        · intro hmem
          exact hdisj x hx' (Finset.mem_of_mem_erase hmem)
      · intro x hx
        rcases List.mem_cons.mp hx with rfl | hx'
        · exact hbu x hc
        · exact hbp x hx'
      · intro x hx
        exact hbu x (Finset.mem_of_mem_erase hx)
      · simp only [List.length_cons]
        omega
    · refine ⟨hnd, ?_, hbp, ?_, hlen⟩
      · intro x hx hmem
        exact hdisj x hx (Finset.mem_of_mem_erase hmem)
      · intro x hx
        exact hbu x (Finset.mem_of_mem_erase hx)
  · refine ⟨hnd, ?_, hbp, ?_, hlen⟩
    · intro x hx hmem
      exact hdisj x hx (Finset.mem_of_mem_erase hmem)
    · intro x hx
      exact hbu x (Finset.mem_of_mem_erase hx)

theorem poolRunAux_wf :
    ∀ (ops : List PoolOp) (s : PoolState), poolOpsValid ops s = true → PoolWF s →
      PoolWF (ops.foldl poolStep s) := by
  intro ops
  induction ops with
  | nil => intro s _ h; exact h
  | cons op rest ih =>
    intro s hv h
    rw [List.foldl_cons]
    cases op with
    | acquire ok =>
      exact ih (poolStep s (.acquire ok)) hv (getContext_wf ok s h)
    | release c ok =>
      rw [poolOpsValid, Bool.and_eq_true, decide_eq_true_eq] at hv
      exact ih (poolStep s (.release c ok)) hv.2 (releaseContext_wf c ok s hv.1 h)

/-- C1: the turn arbiter is FIFO — after any event sequence, the grant log
followed by the still-pending queue equals the arrival sequence, so grants
are issued strictly in arrival order; at most one thread holds the turn at
any instant (`activeCaptchaThreadId` names at most one holder); a release by
a non-holder changes nothing at all; and a release by the holder immediately
grants the turn to the next queued waiter when one exists, or leaves the
turn free when the queue is empty. -/
theorem captcha_turn_arbiter_spec :
    (∀ evts : List ArbEvent,
        (arbRun evts).grants ++ (arbRun evts).queue = arrivals evts)
    ∧ (∀ (s : ArbState) (t1 t2 : Nat),
        s.active = some t1 → s.active = some t2 → t1 = t2)
    ∧ (∀ (s : ArbState) (tid : Nat), s.active ≠ some tid →
        releaseCaptchaLock tid s = s)
    ∧ (∀ (s : ArbState) (tid t : Nat) (rest : List Nat), s.active = some tid →
        s.queue = t :: rest →
          (releaseCaptchaLock tid s).active = some t ∧
          (releaseCaptchaLock tid s).queue = rest ∧
          (releaseCaptchaLock tid s).grants = s.grants ++ [t])
    ∧ (∀ (s : ArbState) (tid : Nat), s.active = some tid → s.queue = [] →
        (releaseCaptchaLock tid s).active = none) := by
  refine ⟨?_, ?_, ?_, ?_, ?_⟩
  · intro evts
    have h := foldl_arbStep_grants_queue evts ArbState.init
    simpa [arbRun, ArbState.init] using h
  · intro s t1 t2 h1 h2
    exact Option.some.inj (h1.symm.trans h2)
  · intro s tid h
    unfold releaseCaptchaLock
    rw [if_neg h]
  · intro s tid t rest hA hQ
    unfold releaseCaptchaLock
    rw [if_pos hA]
    refine ⟨?_, ?_, ?_⟩ <;> simp [processCaptchaQueue, hQ]
  · intro s tid hA hQ
    unfold releaseCaptchaLock
    rw [if_pos hA]
    simp [processCaptchaQueue, hQ]

/-- Witness for C1: a concrete three-event run, a stale release by thread 5
while 3 holds the turn, and releases by the holder with and without waiters. -/
theorem captcha_turn_arbiter_spec_witness :
    ((arbRun [ArbEvent.enq 1, ArbEvent.enq 2, ArbEvent.rel 1]).grants ++
        (arbRun [ArbEvent.enq 1, ArbEvent.enq 2, ArbEvent.rel 1]).queue =
      arrivals [ArbEvent.enq 1, ArbEvent.enq 2, ArbEvent.rel 1])
    ∧ releaseCaptchaLock 5 ⟨[7], some 3, [], [3]⟩ = ⟨[7], some 3, [], [3]⟩
    ∧ (releaseCaptchaLock 3 ⟨[7], some 3, [], [3]⟩).active = some 7
    ∧ (releaseCaptchaLock 3 ⟨[], some 3, [3], [3]⟩).active = none :=
  ⟨captcha_turn_arbiter_spec.1 [ArbEvent.enq 1, ArbEvent.enq 2, ArbEvent.rel 1],
   captcha_turn_arbiter_spec.2.2.1 ⟨[7], some 3, [], [3]⟩ 5 (by decide),
   (captcha_turn_arbiter_spec.2.2.2.1 ⟨[7], some 3, [], [3]⟩ 3 7 [] rfl rfl).1,
   captcha_turn_arbiter_spec.2.2.2.2 ⟨[], some 3, [3], [3]⟩ 3 rfl rfl⟩

/-- C2 counterexample: seven successful acquires against the empty pool of
capacity 6 — a valid operation sequence — leave seven contexts checked out:
`|free| + |in-use| = 7 > 6 = maxSize`, because `getContext` creates a new
context whenever the free list is empty without any capacity check
(lines 711-718). -/
theorem pool_capacity_counterexample :
    (poolRun (List.replicate 7 (PoolOp.acquire true))).pool.length +
        (poolRun (List.replicate 7 (PoolOp.acquire true))).inUse.card = 7 ∧
    (poolRun (List.replicate 7 (PoolOp.acquire true))).maxSize = 6 ∧
    poolOpsValid (List.replicate 7 (PoolOp.acquire true)) PoolState.init = true := by
  exact ⟨by decide, by decide, by decide⟩

/-- C2 (amended): for every valid acquire/release sequence the free list and
the in-use set stay disjoint and the free list never exceeds the capacity;
a release finding the free list at capacity discards the context (the free
list is unchanged and the context is dropped from the in-use set); but
acquire constructs a new context whenever the free list is empty with no
capacity check, so `|free| + |in-use|` is not bounded by the capacity. -/
theorem pool_invariants :
    (∀ ops : List PoolOp, poolOpsValid ops PoolState.init = true →
        (∀ c ∈ (poolRun ops).pool, c ∉ (poolRun ops).inUse) ∧
        (poolRun ops).pool.length ≤ (poolRun ops).maxSize)
    ∧ (∀ (s : PoolState) (c : Nat) (ok : Bool), s.maxSize ≤ s.pool.length →
        (releaseContext c ok s).pool = s.pool ∧
        c ∉ (releaseContext c ok s).inUse) := by
  constructor
  · intro ops hv
    have h0 : PoolWF PoolState.init := by
      refine ⟨List.nodup_nil, ?_, ?_, ?_, ?_⟩ <;> simp [PoolState.init]
    have h := poolRunAux_wf ops PoolState.init hv h0
    exact ⟨h.2.1, h.2.2.2.2⟩
  · intro s c ok hfull
    unfold releaseContext
    dsimp only
    rw [if_neg (by omega)]
    exact ⟨rfl, Finset.not_mem_erase c s.inUse⟩

/-- Witness for C2 (amended): a concrete valid sequence (two acquires, one
release) and a release against a pool whose free list is at capacity. -/
theorem pool_invariants_witness :
    ((∀ c ∈ (poolRun [PoolOp.acquire true, PoolOp.acquire true,
          PoolOp.release 0 true]).pool,
        c ∉ (poolRun [PoolOp.acquire true, PoolOp.acquire true,
          PoolOp.release 0 true]).inUse) ∧
      (poolRun [PoolOp.acquire true, PoolOp.acquire true,
          PoolOp.release 0 true]).pool.length ≤
        (poolRun [PoolOp.acquire true, PoolOp.acquire true,
          PoolOp.release 0 true]).maxSize)
    ∧ (releaseContext 9 true ⟨[0, 1, 2, 3, 4, 5], {9}, 6, 10⟩).pool =
        [0, 1, 2, 3, 4, 5]
    ∧ 9 ∉ (releaseContext 9 true ⟨[0, 1, 2, 3, 4, 5], {9}, 6, 10⟩).inUse :=
  ⟨pool_invariants.1 [PoolOp.acquire true, PoolOp.acquire true,
      PoolOp.release 0 true] (by decide),
   (pool_invariants.2 ⟨[0, 1, 2, 3, 4, 5], {9}, 6, 10⟩ 9 true (by decide)).1,
   (pool_invariants.2 ⟨[0, 1, 2, 3, 4, 5], {9}, 6, 10⟩ 9 true (by decide)).2⟩

/-! ## The captcha solving loop

Embeds the control flow of `solveCaptchaManually` (lines 1264-1711) and the
captcha section of `processAccount` (lines 1926-1988).  The page is an
external environment; every page observation the function makes is a stream
consulted in program order, one stream per kind of probe, each with its own
cursor in `Counters`:

* `obs`    — success-indicating page checks, `true` means the check reported
  success/absence of the captcha: the early-success text check (1283), the
  `page.$` iframe-presence check (1313, absence is success), the visibility
  check (1319, hidden is success), the post-submit `quickSuccessCheck`
  (1454), the retry-time `captchaStillPresent` (1533) and `page.$` (1545)
  checks, the between-rounds `successCheck` (1574), the final round check
  (1594), the after-round `completionCheck` (1631) and the comprehensive
  post-loop check (1673);
* `status` — the `captchaStatus` probe after a submission (1481): `none`
  means not solved, `some true` a definitive success (`success_message` or
  `countdown_detected`, which returns from the whole function, 1521),
  `some false` the other solved methods (`iframe_removed`, `iframe_hidden`,
  `zero_dimensions`), which end the round (1525);
* `ai`     — `solveWithGemini` results (1359);
* `shotOk` — whether `takeCaptchaScreenshot` captures (1343, 1554; a failed
  capture during a retry is treated as success, 1558);
* `frameOk`— whether `contentFrame()` is accessible (1337, failure is
  treated as solved at round start, 1339; at retry time it merely skips the
  screenshot refresh, 1551);
* `skip`   — the `skipCaptchaFlags` check at the top of each attempt (1350);
* `manual` — `waitForCaptchaSolution` replies in manual mode (1387).

The AI-failure screenshot refresh (1369-1381) only overwrites the screenshot
when a new capture succeeds, so whether a screenshot is available never
changes inside the attempt loop; the refresh is therefore not an observation
point of the model. `subs` counts submissions (clicks submitted to the
captcha frame, lines 1414-1449). -/

inductive CaptchaResult where
  | solved | failed | skipped
  deriving DecidableEq, Repr

inductive ManualReply where
  | timeout
  | skipReply
  | click (position : Nat)
  deriving DecidableEq, Repr

structure CaptchaEnv where
  initOk : Bool
  obs : Nat → Bool
  status : Nat → Option Bool
  ai : Nat → Option Nat
  shotOk : Nat → Bool
  frameOk : Nat → Bool
  skip : Nat → Bool
  manual : Nat → ManualReply

structure Counters where
  o : Nat
  st : Nat
  a : Nat
  s : Nat
  f : Nat
  p : Nat
  m : Nat
  subs : Nat
  deriving DecidableEq, Repr

def Counters.zero : Counters := ⟨0, 0, 0, 0, 0, 0, 0, 0⟩

/-- Source line 1347: `maxClickAttempts = useAiSolver ? 3 : 2`. -/
def maxClickAttempts (useAi : Bool) : Nat := if useAi then 3 else 2

/-- How one attempt of the inner while loop (lines 1349-1408) obtains a
candidate click, before anything is submitted: the skip flag short-circuits
the whole task; in AI mode a failed solve consumes the attempt and retries
(1364-1382); in manual mode a timeout breaks the loop (1389-1392) and a
skip reply short-circuits (1394-1396); AI mode without a screenshot breaks
(1400-1404). -/
inductive AttemptAct where
  | submit
  | consumeRetry
  | exitLoop
  | skipTask
  deriving DecidableEq, Repr

def obtainCandidate (env : CaptchaEnv) (useAi hasShot : Bool) (k : Counters) :
    Counters × AttemptAct :=
  let skipHit := env.skip k.p
  let k1 := { k with p := k.p + 1 }
  if skipHit then (k1, .skipTask)
  else if useAi && hasShot then
    match env.ai k1.a with
    | some _ => ({ k1 with a := k1.a + 1 }, .submit)
    | none => ({ k1 with a := k1.a + 1 }, .consumeRetry)
  else if !useAi then
    match env.manual k1.m with
    | .timeout => ({ k1 with m := k1.m + 1 }, .exitLoop)
    | .skipReply => ({ k1 with m := k1.m + 1 }, .skipTask)
    | .click _ => ({ k1 with m := k1.m + 1 }, .submit)
  else (k1, .exitLoop)

/-- The inner while loop over click attempts (lines 1349-1567), fuelled by
the remaining attempts (`maxClickAttempts - clickAttempts`).  Returns either
an early return value of the whole function (`Sum.inl`) or the final
`roundSolved` flag (`Sum.inr`). -/
def attemptLoop (env : CaptchaEnv) (useAi hasShot : Bool) :
    Nat → Counters → Counters × Sum CaptchaResult Bool
  | 0, k => (k, Sum.inr false)
  | fuel + 1, k =>
    match obtainCandidate env useAi hasShot k with
    | (k1, .skipTask) => (k1, Sum.inl .skipped)
    | (k1, .exitLoop) => (k1, Sum.inr false)
    | (k1, .consumeRetry) => attemptLoop env useAi hasShot fuel k1
    | (k1, .submit) =>
      let k2 := { k1 with subs := k1.subs + 1 }
      let quick := env.obs k2.o
      let k3 := { k2 with o := k2.o + 1 }
      if quick then (k3, Sum.inl .solved)
      else
        match env.status k3.st, ({ k3 with st := k3.st + 1 } : Counters) with
        | some true, k4 => (k4, Sum.inl .solved)
        | some false, k4 => (k4, Sum.inr true)
        | none, k4 =>
          match fuel with
          | 0 => (k4, Sum.inr false)
          | _ + 1 =>
            let gone1 := env.obs k4.o
            let k5 := { k4 with o := k4.o + 1 }
            if gone1 then (k5, Sum.inl .solved)
            else
              let gone2 := env.obs k5.o
              let k6 := { k5 with o := k5.o + 1 }
              if gone2 then (k6, Sum.inl .solved)
              else
                let fOk := env.frameOk k6.f
                let k7 := { k6 with f := k6.f + 1 }
                if fOk then
                  let sOk := env.shotOk k7.s
                  let k8 := { k7 with s := k7.s + 1 }
                  if sOk then attemptLoop env useAi hasShot fuel k8
                  else (k8, Sum.inl .solved)
                else attemptLoop env useAi hasShot fuel k7

/-- The round loop (lines 1278-1667) plus the comprehensive post-loop check
(lines 1670-1705).  `round` is the 1-based round number, the second argument
is the number of rounds still to run including the current one; when it hits
zero, the loop is over and the post-loop check decides the result. -/
def roundLoop (env : CaptchaEnv) (useAi : Bool) :
    Nat → Nat → Counters → Counters × CaptchaResult
  | _, 0, k =>
    let fin := env.obs k.o
    ({ k with o := k.o + 1 }, if fin then .solved else .failed)
  | round, rem + 1, k =>
    let (k1, early) :=
      if 1 < round then (({ k with o := k.o + 1 } : Counters), env.obs k.o)
      else (k, false)
    if early then (k1, .solved)
    else
      let gone := env.obs k1.o
      let k2 := { k1 with o := k1.o + 1 }
      if gone then (k2, .solved)
      else
        let hidden := env.obs k2.o
        let k3 := { k2 with o := k2.o + 1 }
        if hidden then (k3, .solved)
        else
          let fOk := env.frameOk k3.f
          let k4 := { k3 with f := k3.f + 1 }
          if !fOk then (k4, .solved)
          else
            let hasShot := env.shotOk k4.s
            let k5 := { k4 with s := k4.s + 1 }
            match attemptLoop env useAi hasShot (maxClickAttempts useAi) k5 with
            | (k6, Sum.inl r) => (k6, r)
            | (k6, Sum.inr true) =>
              let comp := env.obs k6.o
              let k7 := { k6 with o := k6.o + 1 }
              if comp then (k7, .solved)
              else roundLoop env useAi (round + 1) rem k7
            | (k6, Sum.inr false) =>
              match rem with
              | 0 =>
                let fin := env.obs k6.o
                let k7 := { k6 with o := k6.o + 1 }
                (k7, if fin then .solved else .failed)
              | _ + 1 =>
                let sc := env.obs k6.o
                let k7 := { k6 with o := k6.o + 1 }
                if sc then (k7, .solved)
                else roundLoop env useAi (round + 1) rem k7

/-- Source `solveCaptchaManually` (lines 1264-1711): if the captcha iframe never
appears within the initial `waitForSelector` (line 1272), the thrown error is
caught (line 1707) and the function returns false; otherwise the round loop
runs with `maxCaptchaRounds = 2` (line 1276).  The returned number counts
submissions. -/
def solveCaptchaManually (env : CaptchaEnv) (useAi : Bool) : CaptchaResult × Nat :=
  if env.initOk then
    let r := roundLoop env useAi 1 2 Counters.zero
    (r.2, r.1.subs)
  else (.failed, 0)

/-! ## The captcha stage of `processAccount` (lines 1926-1988)

After `waitForCaptchaTurn` is granted, the trigger/solve block runs inside
`try { ... } finally { releaseCaptchaLock(threadId) }`, so the turn is
released exactly once on every exit path.  `buttonOk` is whether
`waitForAndClickGetCodeButton` succeeds (`maxTriggerAttempts = 1`, line
1933); when it fails, or when the captcha is unsolved, the stage throws
after the finally block and `processAccount` returns a plain failure
(line 2124); a skip returns `{success: false, skipped: true}` (line 1965);
success lets the task proceed to the confirmation stages. -/

inductive StageOutcome where
  | proceed | stageFailed | stageSkipped
  deriving DecidableEq, Repr

structure StageResult where
  outcome : StageOutcome
  submissions : Nat
  arb : ArbState
  releases : Nat
  deriving DecidableEq, Repr

def challengeStage (env : CaptchaEnv) (useAi buttonOk : Bool) (tid : Nat)
    (arb0 : ArbState) : StageResult :=
  if buttonOk then
    let r := solveCaptchaManually env useAi
    let arb1 := releaseCaptchaLock tid arb0
    match r.1 with
    | .skipped => ⟨.stageSkipped, r.2, arb1, 1⟩
    | .solved => ⟨.proceed, r.2, arb1, 1⟩
    | .failed => ⟨.stageFailed, r.2, arb1, 1⟩
  else ⟨.stageFailed, 0, releaseCaptchaLock tid arb0, 1⟩

/-- How a stage outcome settles into the task outcome reported to the
scheduler: a skip is `{success: false, skipped: true}` (line 1965), a stage
failure throws and is caught as `{success: false}` (line 2124), and a task
that proceeds succeeds or fails depending on the remaining stages
(`laterOk`). -/
def taskOutcomeOfStage : StageOutcome → Bool → TaskOutcome
  | .stageSkipped, _ => .skipped
  | .stageFailed, _ => .failed
  | .proceed, true => .success
  | .proceed, false => .failed

/-- C3: in AI-solver mode (2 rounds, 3 solve attempts per round), when no
success heuristic ever fires (every page observation reports the captcha
still present, every status probe reports unsolved), every attempt obtains a
candidate answer, screenshots and frames stay available and no skip arrives,
the stage deterministically returns failure after exactly 6 submissions; and
on every exit path of the stage — proceed, failure or skip — the turn
arbiter ticket is released exactly once (the stage's arbiter state is exactly
one `releaseCaptchaLock` application). -/
theorem challenge_loop_bound :
    (∀ (env : CaptchaEnv) (pos : Nat → Nat),
        env.initOk = true →
        (∀ n, env.obs n = false) →
        (∀ n, env.status n = none) →
        (∀ n, env.ai n = some (pos n)) →
        (∀ n, env.shotOk n = true) →
        (∀ n, env.frameOk n = true) →
        (∀ n, env.skip n = false) →
        solveCaptchaManually env true = (.failed, 6) ∧
        (∀ (tid : Nat) (arb : ArbState),
            challengeStage env true true tid arb =
              ⟨.stageFailed, 6, releaseCaptchaLock tid arb, 1⟩))
    ∧ (∀ (env : CaptchaEnv) (useAi buttonOk : Bool) (tid : Nat) (arb : ArbState),
        (challengeStage env useAi buttonOk tid arb).releases = 1 ∧
        (challengeStage env useAi buttonOk tid arb).arb =
          releaseCaptchaLock tid arb) := by
  constructor
  · intro env pos hinit hobs hstat hai hshot hframe hskip
    obtain ⟨i, obs, stat, ai, shot, frame, skp, man⟩ := env
    simp only at hinit hobs hstat hai hshot hframe hskip
    subst hinit
    have hobs' : obs = (fun _ => false) := funext hobs
    have hstat' : stat = (fun _ => none) := funext hstat
    have hai' : ai = (fun n => some (pos n)) := funext hai
    have hshot' : shot = (fun _ => true) := funext hshot
    have hframe' : frame = (fun _ => true) := funext hframe
    have hskip' : skp = (fun _ => false) := funext hskip
    subst hobs' hstat' hai' hshot' hframe' hskip'
    exact ⟨rfl, fun tid arb => rfl⟩
  · intro env useAi buttonOk tid arb
    cases buttonOk with
    | false => exact ⟨rfl, rfl⟩
    | true =>
      unfold challengeStage
      cases h : (solveCaptchaManually env useAi).1 <;> simp [h]

/-- The all-negative environment: the captcha iframe appears, no success
heuristic ever fires, the AI always produces a candidate, screenshots and
frames are always available, no skip arrives. -/
def negativeCaptchaEnv : CaptchaEnv :=
  ⟨true, fun _ => false, fun _ => none, fun _ => some 1, fun _ => true,
   fun _ => true, fun _ => false, fun _ => ManualReply.timeout⟩

/-- Witness for C3 on the all-negative environment. -/
theorem challenge_loop_bound_witness :
    solveCaptchaManually negativeCaptchaEnv true = (.failed, 6) ∧
    (challengeStage negativeCaptchaEnv true true 3 ⟨[], some 3, [], [3]⟩).releases = 1 :=
  ⟨(challenge_loop_bound.1 negativeCaptchaEnv (fun _ => 1) rfl (fun _ => rfl)
      (fun _ => rfl) (fun _ => rfl) (fun _ => rfl) (fun _ => rfl) (fun _ => rfl)).1,
   (challenge_loop_bound.2 negativeCaptchaEnv true true 3 ⟨[], some 3, [], [3]⟩).1⟩

theorem outcome_counts_partition (l : List TaskOutcome) :
    countSuccess l + countSkipped l + countFailed l = l.length := by
  induction l with
  | nil => rfl
  | cons x rest ih =>
    cases x <;>
      simp only [countSuccess, countSkipped, countFailed, List.filter_cons,
        List.length_cons, decide_eq_true_eq] at ih ⊢ <;>
      simp <;> omega

/-- C6: a skip signal present when the task checks its skip flag in the
SolvingChallenge stage (with the captcha present and reachable) makes the
stage return the Skipped outcome — not failure and not success — after zero
submissions, and still releases the turn arbiter ticket exactly once; the
task result is counted by the run summary in the skipped tally and leaves
the failed and successful tallies untouched: the summary fields are exactly
the per-outcome counts of the settled results and the three counts
partition them. -/
theorem skip_propagation :
    (∀ (env : CaptchaEnv) (useAi : Bool) (tid : Nat) (arb : ArbState),
        env.initOk = true → env.obs 0 = false → env.obs 1 = false →
        env.frameOk 0 = true → env.skip 0 = true →
        challengeStage env useAi true tid arb =
          ⟨.stageSkipped, 0, releaseCaptchaLock tid arb, 1⟩)
    ∧ (∀ laterOk : Bool,
        taskOutcomeOfStage .stageSkipped laterOk = .skipped ∧
        taskOutcomeOfStage .stageSkipped laterOk ≠ .failed ∧
        taskOutcomeOfStage .stageSkipped laterOk ≠ .success)
    ∧ (∀ l : List TaskOutcome,
        countSkipped (l ++ [.skipped]) = countSkipped l + 1 ∧
        countSuccess (l ++ [.skipped]) = countSuccess l ∧
        countFailed (l ++ [.skipped]) = countFailed l)
    ∧ (∀ (oracle : Int → TaskOutcome) (N maxT : Int), 1 ≤ N → 1 ≤ maxT →
        (summarize N (runGenerate oracle N maxT)).skippedCount =
          (countSkipped (runGenerate oracle N maxT).results : Int) ∧
        (summarize N (runGenerate oracle N maxT)).failedCount =
          (countFailed (runGenerate oracle N maxT).results : Int) ∧
        (summarize N (runGenerate oracle N maxT)).actualSuccessful =
          (countSuccess (runGenerate oracle N maxT).results : Int) ∧
        countSuccess (runGenerate oracle N maxT).results +
            countSkipped (runGenerate oracle N maxT).results +
            countFailed (runGenerate oracle N maxT).results =
          (runGenerate oracle N maxT).results.length) := by
  refine ⟨?_, ?_, ?_, ?_⟩
  · intro env useAi tid arb hinit hobs0 hobs1 hframe0 hskip0
    have h : solveCaptchaManually env useAi = (.skipped, 0) := by
      cases hs : env.shotOk 0 <;> cases useAi <;>
        simp [solveCaptchaManually, roundLoop, attemptLoop, obtainCandidate,
          Counters.zero, maxClickAttempts, hinit, hobs0, hobs1, hframe0,
          hskip0, hs]
    simp [challengeStage, h]
  · intro laterOk
    exact ⟨rfl, by simp [taskOutcomeOfStage], by simp [taskOutcomeOfStage]⟩
  · intro l
    refine ⟨?_, ?_, ?_⟩ <;>
      simp [countSkipped, countSuccess, countFailed, List.filter_append]
  · intro oracle N maxT hN hT
    obtain ⟨-, hInv, -⟩ := runGenerate_post oracle N maxT hN hT
    exact ⟨rfl, rfl, hInv.2.2.2.2.1, outcome_counts_partition _⟩

/-- The environment in which the operator's skip signal is already flagged
when the task reaches its first solve attempt. -/
def skipSignalEnv : CaptchaEnv :=
  ⟨true, fun _ => false, fun _ => none, fun _ => none, fun _ => true,
   fun _ => true, fun _ => true, fun _ => ManualReply.timeout⟩

/-- Witness for C6 on the skip environment, in both solver modes, plus a
run whose only attempt is skipped. -/
theorem skip_propagation_witness :
    challengeStage skipSignalEnv true true 4 ⟨[], some 4, [4], [4]⟩ =
      ⟨.stageSkipped, 0, releaseCaptchaLock 4 ⟨[], some 4, [4], [4]⟩, 1⟩ ∧
    challengeStage skipSignalEnv false true 4 ⟨[], some 4, [4], [4]⟩ =
      ⟨.stageSkipped, 0, releaseCaptchaLock 4 ⟨[], some 4, [4], [4]⟩, 1⟩ ∧
    taskOutcomeOfStage .stageSkipped true = .skipped ∧
    countSkipped ([TaskOutcome.failed] ++ [.skipped]) =
      countSkipped [TaskOutcome.failed] + 1 ∧
    (summarize 1 (runGenerate (fun _ => TaskOutcome.skipped) 1 6)).skippedCount =
      (countSkipped (runGenerate (fun _ => TaskOutcome.skipped) 1 6).results : Int) :=
  ⟨skip_propagation.1 skipSignalEnv true 4 ⟨[], some 4, [4], [4]⟩ rfl rfl rfl rfl rfl,
   skip_propagation.1 skipSignalEnv false 4 ⟨[], some 4, [4], [4]⟩ rfl rfl rfl rfl rfl,
   (skip_propagation.2.1 true).1,
   (skip_propagation.2.2.1 [TaskOutcome.failed]).1,
   (skip_propagation.2.2.2 (fun _ => TaskOutcome.skipped) 1 6 (by norm_num)
      (by norm_num)).1⟩

/-! ## Finalizing: interpreting the invitation acknowledgment

Embeds the post-registration interpretation in `processAccount`
(lines 2043-2121).  Dialog alerts can set `invitationStatus` to
already-invited or success (lines 2057-2065); when no such alert was seen
within the bounded wait, the page body text is classified instead, with
`unknown` as the fallback (lines 2091-2107).  All three statuses return
`{success: true}`: already-invited (line 2111), success (line 2116) and
unknown ("Status unknown, assuming success", lines 2119-2120). -/

inductive InvitationStatus where
  | alreadyInvited | invitationSuccess | unknown
  deriving DecidableEq, Repr

/-- Lines 2091-2107: the alert-reported status wins; otherwise the body-text
classification (already-invited, success, or unknown) is used. -/
def resolveInvitationStatus (alertStatus : Option InvitationStatus)
    (bodyStatus : InvitationStatus) : InvitationStatus :=
  match alertStatus with
  | some st => st
  | none => bodyStatus

/-- Lines 2109-2121: every status — including unknown — returns success. -/
def finalizeTaskResult (st : InvitationStatus) : TaskOutcome :=
  match st with
  | .alreadyInvited => .success
  | .invitationSuccess => .success
  | .unknown => .success

/-- C7: an explicit already-completed/invited acknowledgment yields
Succeeded; an explicit success acknowledgment yields Succeeded; and a status
that remains unknown after the bounded wait also yields Succeeded — the
optimistic default; indeed every reachable final status yields Succeeded. -/
theorem finalizing_optimistic_success :
    (∀ body : InvitationStatus,
        finalizeTaskResult (resolveInvitationStatus (some .alreadyInvited) body) =
          .success)
    ∧ (∀ body : InvitationStatus,
        finalizeTaskResult (resolveInvitationStatus (some .invitationSuccess) body) =
          .success)
    ∧ finalizeTaskResult (resolveInvitationStatus none .unknown) = .success
    ∧ (∀ (alertStatus : Option InvitationStatus) (body : InvitationStatus),
        finalizeTaskResult (resolveInvitationStatus alertStatus body) = .success) := by
  refine ⟨fun _ => rfl, fun _ => rfl, rfl, ?_⟩
  intro alertStatus body
  cases alertStatus with
  | none => cases body <;> rfl
  | some st => cases st <;> rfl

/-! ## Email prefetch queue

Embeds the email queue (lines 600-602, 778-791).  A queue entry is an
in-flight credential-producing operation; `EmailOp.queued id` is one started
by the maintenance loop (tagged 'queue' in the source, identified here by a
freshness counter) and `EmailOp.direct tid` is the synchronous fallback
fetch tagged with the caller's threadId.  `maintainEmailQueue` runs its
while loop synchronously (its body contains no await), pushing new in-flight
operations until the depth reaches `EMAIL_QUEUE_SIZE = 10`; because
`getEmailFromQueue` calls it before shifting, the shift always finds a
non-empty queue and the `|| generateEmailInternal(threadId)` fallback is
unreachable — a caller arriving at an empty queue receives the first
operation freshly started during its own call. -/

inductive EmailOp where
  | queued (id : Nat)
  | direct (tid : Nat)
  deriving DecidableEq, Repr

def EMAIL_QUEUE_SIZE : Nat := 10

structure EmailState where
  queue : List EmailOp
  next : Nat
  deriving DecidableEq, Repr

/-- The `while (emailQueue.length < EMAIL_QUEUE_SIZE)` loop of
`maintainEmailQueue` (lines 778-783), fuelled by the maximum number of
pushes it can make. -/
def refillEmailQueue : Nat → EmailState → EmailState
  | 0, st => st
  | fuel + 1, st =>
    if st.queue.length < EMAIL_QUEUE_SIZE then
      refillEmailQueue fuel ⟨st.queue ++ [.queued st.next], st.next + 1⟩
    else st

def maintainEmailQueue (st : EmailState) : EmailState :=
  refillEmailQueue EMAIL_QUEUE_SIZE st

/-- Source `getEmailFromQueue` (lines 785-791): refill (synchronously), then shift
the front entry; the fallback direct fetch fires only if the queue is still
empty after the refill. -/
def getEmailFromQueue (tid : Nat) (st : EmailState) : EmailOp × EmailState :=
  let st1 := maintainEmailQueue st
  match st1.queue with
  | e :: rest => (e, ⟨rest, st1.next⟩)
  | [] => (.direct tid, ⟨[], st1.next⟩)

inductive EmailEvent where
  | maintain
  | take (tid : Nat)
  deriving DecidableEq, Repr

def emailStep (st : EmailState) : EmailEvent → EmailState
  | .maintain => maintainEmailQueue st
  | .take tid => (getEmailFromQueue tid st).2

def emailRun (evts : List EmailEvent) : EmailState :=
  evts.foldl emailStep ⟨[], 0⟩

theorem refillEmailQueue_append (fuel : Nat) :
    ∀ st : EmailState, ∃ l : List EmailOp,
      (refillEmailQueue fuel st).queue = st.queue ++ l := by
  induction fuel with
  | zero => intro st; exact ⟨[], by simp [refillEmailQueue]⟩
  | succ n ih =>
    intro st
    unfold refillEmailQueue
    split
    · obtain ⟨l, hl⟩ := ih ⟨st.queue ++ [.queued st.next], st.next + 1⟩
      exact ⟨[.queued st.next] ++ l, by rw [hl]; simp⟩
    · exact ⟨[], by simp⟩

theorem refillEmailQueue_length_le (fuel : Nat) :
    ∀ st : EmailState, st.queue.length ≤ EMAIL_QUEUE_SIZE →
      (refillEmailQueue fuel st).queue.length ≤ EMAIL_QUEUE_SIZE := by
  induction fuel with
  | zero => intro st h; exact h
  | succ n ih =>
    intro st h
    unfold refillEmailQueue
    split
    · next hlt =>
      apply ih
      simp only [List.length_append, List.length_singleton]
      omega
    · exact h

theorem maintainEmailQueue_length_le (st : EmailState)
    (h : st.queue.length ≤ EMAIL_QUEUE_SIZE) :
    (maintainEmailQueue st).queue.length ≤ EMAIL_QUEUE_SIZE :=
  refillEmailQueue_length_le EMAIL_QUEUE_SIZE st h

theorem emailRun_length_le (evts : List EmailEvent) :
    (emailRun evts).queue.length ≤ EMAIL_QUEUE_SIZE := by
  suffices h : ∀ st : EmailState, st.queue.length ≤ EMAIL_QUEUE_SIZE →
      (evts.foldl emailStep st).queue.length ≤ EMAIL_QUEUE_SIZE by
    exact h ⟨[], 0⟩ (by simp)
  induction evts with
  | nil => intro st h; exact h
  | cons e rest ih =>
    intro st h
    rw [List.foldl_cons]
    apply ih
    cases e with
    | maintain => exact maintainEmailQueue_length_le st h
    | take tid =>
      have h1 := maintainEmailQueue_length_le st h
      simp only [emailStep, getEmailFromQueue]
      split
      · next e2 rest2 heq =>
        rw [heq] at h1
        simp only [List.length_cons] at h1
        dsimp only
        omega
      · dsimp only
        exact Nat.zero_le _

/-- C8: `take` consumes the oldest in-flight operation first (the refill
only appends, so the head of a non-empty queue is returned); a caller
arriving at an empty queue receives an operation synchronously started
during its own call (the first push of the refill, `EmailOp.queued st.next`);
and over any sequence of maintain/take operations the queue depth — the
number of concurrently in-flight fetches — never exceeds the target
depth 10. -/
theorem email_queue_spec :
    (∀ (st : EmailState) (tid : Nat) (e : EmailOp) (rest : List EmailOp),
        st.queue = e :: rest → (getEmailFromQueue tid st).1 = e)
    ∧ (∀ (st : EmailState) (tid : Nat), st.queue = [] →
        (getEmailFromQueue tid st).1 = .queued st.next)
    ∧ (∀ evts : List EmailEvent,
        (emailRun evts).queue.length ≤ EMAIL_QUEUE_SIZE) := by
  refine ⟨?_, ?_, emailRun_length_le⟩
  · intro st tid e rest hq
    obtain ⟨l, hl⟩ := refillEmailQueue_append EMAIL_QUEUE_SIZE st
    rw [hq, List.cons_append] at hl
    simp only [getEmailFromQueue]
    split
    · next e2 rest2 heq =>
      rw [show maintainEmailQueue st = refillEmailQueue EMAIL_QUEUE_SIZE st from rfl,
        hl] at heq
      injection heq with hhead htail
      dsimp only
      exact hhead.symm
    · next heq =>
      rw [show maintainEmailQueue st = refillEmailQueue EMAIL_QUEUE_SIZE st from rfl,
        hl] at heq
      exact absurd heq (List.cons_ne_nil _ _)
  · intro st tid hq
    obtain ⟨q, n⟩ := st
    simp only at hq
    subst hq
    simp [getEmailFromQueue, maintainEmailQueue, EMAIL_QUEUE_SIZE, refillEmailQueue]

/-- Witness for C8: a take against a two-element queue returns its head, a
take against the empty queue returns the freshly started operation, and a
maintain/take run stays within depth 10. -/
theorem email_queue_spec_witness :
    (getEmailFromQueue 5 ⟨[EmailOp.queued 0, EmailOp.queued 1], 2⟩).1 =
      EmailOp.queued 0 ∧
    (getEmailFromQueue 5 ⟨[], 0⟩).1 = EmailOp.queued 0 ∧
    (emailRun [EmailEvent.maintain, EmailEvent.take 1]).queue.length ≤
      EMAIL_QUEUE_SIZE :=
  ⟨email_queue_spec.1 ⟨[EmailOp.queued 0, EmailOp.queued 1], 2⟩ 5
     (EmailOp.queued 0) [EmailOp.queued 1] rfl,
   email_queue_spec.2.1 ⟨[], 0⟩ 5 rfl,
   email_queue_spec.2.2 [EmailEvent.maintain, EmailEvent.take 1]⟩

/-! ## The captcha resolver registry

Embeds `captchaResolvers` (line 585) and its three fulfilment paths: an
incoming `captcha_click` answer resolves and deletes the entry for its
threadId (lines 825-829), an incoming `skip_captcha` resolves with a skip
and deletes it (lines 810-814), and the `waitForCaptchaSolution` timeout
deletes the entry and resolves null (lines 1246-1249); delivering to a
threadId with no registered entry does nothing.  Registration
(lines 1251-1260) is `Map.set`: it replaces an existing entry for the same
threadId in place or appends a new one.  A slot instance is identified by a
freshness counter `next`; the `log` records, per slot instance, how it was
fulfilled, so that one-shot fulfilment is expressible as: no slot id is
ever logged twice.  (The fallback that routes an answer without a threadId
to the first registered key, lines 821-823, is not modeled; the frontend
always sends a threadId.) -/

inductive SlotEvent where
  | answered | skipDelivered | timedOut
  deriving DecidableEq, Repr

structure RegState where
  slots : List (Nat × Nat)
  next : Nat
  log : List (Nat × SlotEvent)
  deriving DecidableEq, Repr

/-- JS `Map.set`: replace the entry with the same key in place, else append. -/
def setSlot (tid v : Nat) : List (Nat × Nat) → List (Nat × Nat)
  | [] => [(tid, v)]
  | e :: rest => if e.1 = tid then (tid, v) :: rest else e :: setSlot tid v rest

/-- JS `Map.get` for the first entry with the key. -/
def lookupSlot (tid : Nat) : List (Nat × Nat) → Option Nat
  | [] => none
  | e :: rest => if e.1 = tid then some e.2 else lookupSlot tid rest

/-- JS `Map.delete`. -/
def removeSlot (tid : Nat) : List (Nat × Nat) → List (Nat × Nat)
  | [] => []
  | e :: rest => if e.1 = tid then removeSlot tid rest else e :: removeSlot tid rest

def registerResolver (tid : Nat) (st : RegState) : RegState :=
  ⟨setSlot tid st.next st.slots, st.next + 1, st.log⟩

def deliverToResolver (ev : SlotEvent) (tid : Nat) (st : RegState) : RegState :=
  match lookupSlot tid st.slots with
  | some sid => ⟨removeSlot tid st.slots, st.next, st.log ++ [(sid, ev)]⟩
  | none => st

inductive RegOp where
  | register (tid : Nat)
  | answer (tid : Nat)
  | skipMsg (tid : Nat)
  | expire (tid : Nat)
  deriving DecidableEq, Repr

def regStep (st : RegState) : RegOp → RegState
  | .register tid => registerResolver tid st
  | .answer tid => deliverToResolver .answered tid st
  | .skipMsg tid => deliverToResolver .skipDelivered tid st
  | .expire tid => deliverToResolver .timedOut tid st

def regRun (ops : List RegOp) : RegState :=
  ops.foldl regStep ⟨[], 0, []⟩

theorem mem_setSlot (tid v : Nat) (l : List (Nat × Nat)) (p : Nat × Nat)
    (hp : p ∈ setSlot tid v l) : p = (tid, v) ∨ p ∈ l := by
  induction l with
  | nil =>
    simp only [setSlot, List.mem_singleton] at hp
    exact Or.inl hp
  | cons e rest ih =>
    unfold setSlot at hp
    split at hp
    · rcases List.mem_cons.mp hp with rfl | h
      · exact Or.inl rfl
      · exact Or.inr (List.mem_cons_of_mem e h)
    · rcases List.mem_cons.mp hp with rfl | h
      · exact Or.inr (List.mem_cons_self _ _)
      · rcases ih h with h1 | h1
        · exact Or.inl h1
        · exact Or.inr (List.mem_cons_of_mem e h1)

theorem setSlot_snd_nodup (tid v : Nat) (l : List (Nat × Nat))
    (hfresh : ∀ p ∈ l, p.2 ≠ v) (hnd : (l.map Prod.snd).Nodup) :
    ((setSlot tid v l).map Prod.snd).Nodup := by
  induction l with
  | nil => simp [setSlot]
  | cons e rest ih =>
    unfold setSlot
    split
    · simp only [List.map_cons, List.nodup_cons] at hnd ⊢
      refine ⟨?_, hnd.2⟩
      intro hmem
      obtain ⟨p, hp, hpv⟩ := List.mem_map.mp hmem
      exact hfresh p (List.mem_cons_of_mem e hp) hpv
    · simp only [List.map_cons, List.nodup_cons] at hnd ⊢
      refine ⟨?_, ih (fun p hp => hfresh p (List.mem_cons_of_mem e hp)) hnd.2⟩
      intro hmem
      obtain ⟨p, hp, hpv⟩ := List.mem_map.mp hmem
      rcases mem_setSlot tid v rest p hp with rfl | h
      · exact hfresh e (List.mem_cons_self _ _) hpv.symm
      · exact hnd.1 (List.mem_map.mpr ⟨p, h, hpv⟩)

theorem lookupSlot_mem (tid : Nat) (l : List (Nat × Nat)) (v : Nat)
    (h : lookupSlot tid l = some v) : (tid, v) ∈ l := by
  induction l with
  | nil => simp [lookupSlot] at h
  | cons e rest ih =>
    unfold lookupSlot at h
    split at h
    · next heq =>
      injection h with h2
      rw [← heq, ← h2]
      exact List.mem_cons_self _ _
    · exact List.mem_cons_of_mem e (ih h)

theorem mem_removeSlot (tid : Nat) (l : List (Nat × Nat)) (p : Nat × Nat)
    (hp : p ∈ removeSlot tid l) : p ∈ l := by
  induction l with
  | nil => simp [removeSlot] at hp
  | cons e rest ih =>
    unfold removeSlot at hp
    split at hp
    · exact List.mem_cons_of_mem e (ih hp)
    · rcases List.mem_cons.mp hp with rfl | h
      · exact List.mem_cons_self _ _
      · exact List.mem_cons_of_mem e (ih h)

theorem mem_removeSlot_key (tid : Nat) (l : List (Nat × Nat)) (p : Nat × Nat)
    (hnd : (l.map Prod.fst).Nodup) (hp : p ∈ removeSlot tid l) : p.1 ≠ tid := by
  induction l with
  | nil => simp [removeSlot] at hp
  | cons e rest ih =>
    simp only [List.map_cons, List.nodup_cons] at hnd
    unfold removeSlot at hp
    split at hp
    · exact ih hnd.2 hp
    · next hne =>
      rcases List.mem_cons.mp hp with rfl | h
      · exact hne
      · exact ih hnd.2 h

theorem removeSlot_sublist (tid : Nat) (l : List (Nat × Nat)) :
    List.Sublist (removeSlot tid l) l := by
  induction l with
  | nil => exact List.Sublist.refl []
  | cons e rest ih =>
    unfold removeSlot
    split
    · exact ih.cons e
    · exact ih.cons₂ e

/-- Registry well-formedness: slot ids and logged ids are below the
freshness counter, slot keys and slot ids are duplicate-free, no live slot
id has been logged, and — the one-shot property — no slot id is logged
twice. -/
def RegWF (st : RegState) : Prop :=
  (∀ p ∈ st.slots, p.2 < st.next) ∧
  (∀ q ∈ st.log, q.1 < st.next) ∧
  (st.slots.map Prod.fst).Nodup ∧
  (st.slots.map Prod.snd).Nodup ∧
  (∀ p ∈ st.slots, ∀ q ∈ st.log, p.2 ≠ q.1) ∧
  (st.log.map Prod.fst).Nodup

theorem setSlot_fst_nodup (tid v : Nat) (l : List (Nat × Nat))
    (hnd : (l.map Prod.fst).Nodup) : ((setSlot tid v l).map Prod.fst).Nodup := by
  induction l with
  | nil => simp [setSlot]
  | cons e rest ih =>
    unfold setSlot
    split
    · next heq =>
      simp only [List.map_cons, List.nodup_cons] at hnd ⊢
      exact ⟨by rw [← heq]; exact hnd.1, hnd.2⟩
    · next hne =>
      simp only [List.map_cons, List.nodup_cons] at hnd ⊢
      refine ⟨?_, ih hnd.2⟩
      intro hmem
      obtain ⟨p, hp, hpv⟩ := List.mem_map.mp hmem
      rcases mem_setSlot tid v rest p hp with rfl | h
      · exact hne hpv.symm
      · exact hnd.1 (List.mem_map.mpr ⟨p, h, hpv⟩)

theorem registerResolver_wf (tid : Nat) (st : RegState) (h : RegWF st) :
    RegWF (registerResolver tid st) := by
  obtain ⟨h1, h2, h3, h4, h5, h6⟩ := h
  refine ⟨?_, ?_, ?_, ?_, ?_, h6⟩
  · intro p hp
    rcases mem_setSlot tid st.next st.slots p hp with rfl | hm
    · exact Nat.lt_succ_self _
    · exact Nat.lt_succ_of_lt (h1 p hm)
  · intro q hq
    exact Nat.lt_succ_of_lt (h2 q hq)
  · exact setSlot_fst_nodup tid st.next st.slots h3
  · exact setSlot_snd_nodup tid st.next st.slots
      (fun p hp => Nat.ne_of_lt (h1 p hp)) h4
  · intro p hp q hq
    rcases mem_setSlot tid st.next st.slots p hp with rfl | hm
    · intro hc
      have := h2 q hq
      simp only at hc
      omega
    · exact h5 p hm q hq

theorem deliverToResolver_wf (ev : SlotEvent) (tid : Nat) (st : RegState)
    (h : RegWF st) : RegWF (deliverToResolver ev tid st) := by
  obtain ⟨h1, h2, h3, h4, h5, h6⟩ := h
  unfold deliverToResolver
  split
  · next sid hlook =>
    have hmem : (tid, sid) ∈ st.slots := lookupSlot_mem tid st.slots sid hlook
    refine ⟨?_, ?_, ?_, ?_, ?_, ?_⟩
    · intro p hp
      exact h1 p (mem_removeSlot tid st.slots p hp)
    · intro q hq
      rcases List.mem_append.mp hq with hm | hm
      · exact h2 q hm
      · rcases List.mem_singleton.mp hm with rfl
        exact h1 (tid, sid) hmem
    · exact List.Nodup.sublist
        (List.Sublist.map Prod.fst (removeSlot_sublist tid st.slots)) h3
    · exact List.Nodup.sublist
        (List.Sublist.map Prod.snd (removeSlot_sublist tid st.slots)) h4
    · intro p hp q hq
      rcases List.mem_append.mp hq with hm | hm
      · exact h5 p (mem_removeSlot tid st.slots p hp) q hm
      · rcases List.mem_singleton.mp hm with rfl
        intro hc
        have hpmem := mem_removeSlot tid st.slots p hp
        have heq : p = (tid, sid) :=
          List.inj_on_of_nodup_map h4 hpmem hmem hc
        exact mem_removeSlot_key tid st.slots p h3 hp (by rw [heq])
    · simp only [List.map_append, List.map_cons, List.map_nil]
      refine List.Nodup.append h6 (List.nodup_singleton _) ?_
      intro a ha ha2
      have has : a = sid := List.mem_singleton.mp ha2
      obtain ⟨q, hq, hq1⟩ := List.mem_map.mp ha
      exact h5 (tid, sid) hmem q hq ((hq1.trans has).symm)
  · exact ⟨h1, h2, h3, h4, h5, h6⟩

theorem regRunAux_wf :
    ∀ (ops : List RegOp) (st : RegState), RegWF st →
      RegWF (ops.foldl regStep st) := by
  intro ops
  induction ops with
  | nil => intro st h; exact h
  | cons op rest ih =>
    intro st h
    rw [List.foldl_cons]
    apply ih
    cases op with
    | register tid => exact registerResolver_wf tid st h
    | answer tid => exact deliverToResolver_wf .answered tid st h
    | skipMsg tid => exact deliverToResolver_wf .skipDelivered tid st h
    | expire tid => exact deliverToResolver_wf .timedOut tid st h

theorem lookupSlot_removeSlot (tid : Nat) (l : List (Nat × Nat)) :
    lookupSlot tid (removeSlot tid l) = none := by
  induction l with
  | nil => rfl
  | cons e rest ih =>
    unfold removeSlot
    split
    · exact ih
    · next hne =>
      unfold lookupSlot
      rw [if_neg hne]
      exact ih

/-- C9: the challenge-answer correlation registry is a registry of one-shot
result slots keyed by task identity: over any operation sequence no slot
instance is ever fulfilled twice (the resolver is deleted the first time it
is resolved, by an answer, a skip, or the timeout); delivering an answer or
skip for a task identity with no registered slot is a safe no-op; and an
incoming answer is routed exactly to the slot matching its task identity,
which is removed by the delivery. -/
theorem captcha_resolver_registry_spec :
    (∀ ops : List RegOp, ((regRun ops).log.map Prod.fst).Nodup)
    ∧ (∀ (st : RegState) (tid : Nat) (ev : SlotEvent),
        lookupSlot tid st.slots = none → deliverToResolver ev tid st = st)
    ∧ (∀ (st : RegState) (tid sid : Nat) (ev : SlotEvent),
        lookupSlot tid st.slots = some sid →
        deliverToResolver ev tid st =
          ⟨removeSlot tid st.slots, st.next, st.log ++ [(sid, ev)]⟩ ∧
        lookupSlot tid (deliverToResolver ev tid st).slots = none) := by
  refine ⟨?_, ?_, ?_⟩
  · intro ops
    have h0 : RegWF ⟨[], 0, []⟩ := by
      refine ⟨?_, ?_, ?_, ?_, ?_, ?_⟩ <;> simp
    exact (regRunAux_wf ops ⟨[], 0, []⟩ h0).2.2.2.2.2
  · intro st tid ev hnone
    unfold deliverToResolver
    rw [hnone]
  · intro st tid sid ev hsome
    constructor
    · unfold deliverToResolver
      rw [hsome]
    · unfold deliverToResolver
      rw [hsome]
      exact lookupSlot_removeSlot tid st.slots

/-- Witness for C9: a run with a duplicate delivery (the second `answer 1`
is a no-op), a delivery against an absent key, and a routed delivery. -/
theorem captcha_resolver_registry_spec_witness :
    ((regRun [RegOp.register 1, RegOp.register 2, RegOp.answer 1,
        RegOp.answer 1]).log.map Prod.fst).Nodup ∧
    deliverToResolver .answered 9 ⟨[(1, 0)], 1, []⟩ = ⟨[(1, 0)], 1, []⟩ ∧
    deliverToResolver .answered 1 ⟨[(1, 0), (2, 5)], 6, []⟩ =
      ⟨[(2, 5)], 6, [(0, .answered)]⟩ :=
  ⟨captcha_resolver_registry_spec.1
     [RegOp.register 1, RegOp.register 2, RegOp.answer 1, RegOp.answer 1],
   captcha_resolver_registry_spec.2.1 ⟨[(1, 0)], 1, []⟩ 9 .answered (by decide),
   (captcha_resolver_registry_spec.2.2 ⟨[(1, 0), (2, 5)], 6, []⟩ 1 0 .answered
      (by decide)).1⟩

/-! ## Frontend captcha queue

Embeds the frontend's pending-captcha handling (App.js lines 24-26, 67-74,
85-108, 137-163): `currentCaptcha` is the challenge being displayed and
`captchaQueue` the pending ones.  An arriving captcha message for the thread
currently displayed replaces the displayed image in place (lines 98-100);
anything else removes the sender thread's older queued entry and appends the
new one (lines 101-106).  The dequeue effect (lines 68-74) promotes the
queue head when nothing is displayed; answering or skipping the displayed
captcha clears it (lines 148, 161).  The `currentCaptchaRef` mirror of
`currentCaptcha` is identified with it here. -/

structure CaptchaItem where
  threadId : Nat
  payload : Nat
  deriving DecidableEq, Repr

structure FrontendState where
  currentCaptcha : Option CaptchaItem
  captchaQueue : List CaptchaItem
  deriving DecidableEq, Repr

/-- The `data.type === 'captcha'` branch of the message handler
(lines 91-107). -/
def onCaptchaMessage (it : CaptchaItem) (s : FrontendState) : FrontendState :=
  match s.currentCaptcha with
  | some active =>
    if active.threadId = it.threadId then { s with currentCaptcha := some it }
    else
      { s with captchaQueue :=
          (s.captchaQueue.filter fun c => c.threadId != it.threadId) ++ [it] }
  | none =>
    { s with captchaQueue :=
        (s.captchaQueue.filter fun c => c.threadId != it.threadId) ++ [it] }

/-- The queue-processing effect (lines 68-74). -/
def promoteNextCaptcha (s : FrontendState) : FrontendState :=
  match s.currentCaptcha, s.captchaQueue with
  | none, n :: rest => ⟨some n, rest⟩
  | _, _ => s

/-- Answering (`handleCaptchaSelect`, line 148) or skipping
(`handleSkipCaptcha`, line 161) clears the displayed captcha. -/
def clearCurrentCaptcha (s : FrontendState) : FrontendState :=
  { s with currentCaptcha := none }

inductive FrontendEvent where
  | message (it : CaptchaItem)
  | promote
  | resolveCurrent
  deriving DecidableEq, Repr

def frontendStep (s : FrontendState) : FrontendEvent → FrontendState
  | .message it => onCaptchaMessage it s
  | .promote => promoteNextCaptcha s
  | .resolveCurrent => clearCurrentCaptcha s

def frontendRun (evts : List FrontendEvent) : FrontendState :=
  evts.foldl frontendStep ⟨none, []⟩

theorem filter_append_tid_nodup (l : List CaptchaItem) (it : CaptchaItem)
    (h : (l.map CaptchaItem.threadId).Nodup) :
    (((l.filter fun c => c.threadId != it.threadId) ++ [it]).map
        CaptchaItem.threadId).Nodup := by
  rw [List.map_append]
  refine List.Nodup.append ?_ (List.nodup_singleton _) ?_
  · exact List.Nodup.sublist
      (List.Sublist.map CaptchaItem.threadId (List.filter_sublist l)) h
  · intro a ha ha2
    have has : a = it.threadId := List.mem_singleton.mp ha2
    obtain ⟨c, hc, hc1⟩ := List.mem_map.mp ha
    have hcond := List.of_mem_filter hc
    rw [bne_iff_ne] at hcond
    exact hcond (hc1.trans has)

theorem frontendRun_queue_nodup (evts : List FrontendEvent) :
    ((frontendRun evts).captchaQueue.map CaptchaItem.threadId).Nodup := by
  suffices h : ∀ s : FrontendState,
      (s.captchaQueue.map CaptchaItem.threadId).Nodup →
      ((evts.foldl frontendStep s).captchaQueue.map CaptchaItem.threadId).Nodup by
    exact h ⟨none, []⟩ (by simp)
  induction evts with
  | nil => intro s h; exact h
  | cons e rest ih =>
    intro s h
    rw [List.foldl_cons]
    apply ih
    cases e with
    | message it =>
      show ((onCaptchaMessage it s).captchaQueue.map CaptchaItem.threadId).Nodup
      unfold onCaptchaMessage
      split
      · split
        · exact h
        · exact filter_append_tid_nodup s.captchaQueue it h
      · exact filter_append_tid_nodup s.captchaQueue it h
    | promote =>
      show ((promoteNextCaptcha s).captchaQueue.map CaptchaItem.threadId).Nodup
      unfold promoteNextCaptcha
      split
      · next n rest2 heq1 heq2 =>
        rw [heq2] at h
        simp only [List.map_cons, List.nodup_cons] at h
        exact h.2
      · exact h
    | resolveCurrent => exact h

/-- C10: for every thread identity the pending captcha queue holds at most
one queued challenge at any time; an arriving challenge for the thread whose
challenge is currently displayed replaces the displayed image in place and
leaves the queue untouched; an arriving challenge for any other thread
removes that thread's older queued entry before appending the new one. -/
theorem frontend_captcha_queue_spec :
    (∀ (evts : List FrontendEvent) (tid : Nat),
        ((frontendRun evts).captchaQueue.map CaptchaItem.threadId).count tid ≤ 1)
    ∧ (∀ (s : FrontendState) (it active : CaptchaItem),
        s.currentCaptcha = some active → active.threadId = it.threadId →
        onCaptchaMessage it s = { s with currentCaptcha := some it })
    ∧ (∀ (s : FrontendState) (it active : CaptchaItem),
        s.currentCaptcha = some active → active.threadId ≠ it.threadId →
        onCaptchaMessage it s =
          { s with captchaQueue :=
              (s.captchaQueue.filter fun c => c.threadId != it.threadId) ++ [it] }) := by
  refine ⟨?_, ?_, ?_⟩
  · intro evts tid
    exact List.nodup_iff_count_le_one.mp (frontendRun_queue_nodup evts) tid
  · intro s it active hact htid
    unfold onCaptchaMessage
    rw [hact]
    dsimp only
    rw [if_pos htid]
  · intro s it active hact htid
    unfold onCaptchaMessage
    rw [hact]
    dsimp only
    rw [if_neg htid]

/-- Witness for C10: a run in which thread 1's second challenge replaces its
queued first one, an in-place replacement for the displayed thread, and a
queued replacement for another thread. -/
theorem frontend_captcha_queue_spec_witness :
    ((frontendRun [FrontendEvent.message ⟨1, 10⟩, FrontendEvent.promote,
        FrontendEvent.message ⟨2, 20⟩, FrontendEvent.message ⟨2, 21⟩,
        FrontendEvent.message ⟨3, 30⟩]).captchaQueue.map
        CaptchaItem.threadId).count 2 ≤ 1 ∧
    onCaptchaMessage ⟨1, 11⟩ ⟨some ⟨1, 10⟩, [⟨2, 20⟩]⟩ =
      ⟨some ⟨1, 11⟩, [⟨2, 20⟩]⟩ ∧
    onCaptchaMessage ⟨2, 21⟩ ⟨some ⟨1, 10⟩, [⟨2, 20⟩, ⟨3, 30⟩]⟩ =
      ⟨some ⟨1, 10⟩, [⟨3, 30⟩, ⟨2, 21⟩]⟩ :=
  ⟨frontend_captcha_queue_spec.1
     [FrontendEvent.message ⟨1, 10⟩, FrontendEvent.promote,
      FrontendEvent.message ⟨2, 20⟩, FrontendEvent.message ⟨2, 21⟩,
      FrontendEvent.message ⟨3, 30⟩] 2,
   frontend_captcha_queue_spec.2.1 ⟨some ⟨1, 10⟩, [⟨2, 20⟩]⟩ ⟨1, 11⟩ ⟨1, 10⟩
     rfl rfl,
   (frontend_captcha_queue_spec.2.2 ⟨some ⟨1, 10⟩, [⟨2, 20⟩, ⟨3, 30⟩]⟩ ⟨2, 21⟩
      ⟨1, 10⟩ rfl (by decide)).trans (by decide)⟩

end Autofirm
